import Mathlib

/-!
Shallow embedding of the housing-market simulation core
(`src/model/agents.py`, `src/model/schedule.py`) and proofs about its
auction clearing, ownership transfer, bidding, firm dynamics, scheduler
and bid / allocation records.

Money amounts and rates (Python floats) are modelled as exact rationals
`ℚ`; the real-exponent firm production function is modelled over `ℝ`.
Agents are referred to by their integer `unique_id`.  A Python operation
that can raise an exception (`ZeroDivisionError`, `KeyError`,
`ValueError`) is modelled as returning `Option`/`Except`, with `none` /
`.error` marking the raise.
-/

namespace HousingApp

/-! ### Bids and allocations (classes `Bid` and `Allocation`) -/

/-- A bid as stored in the realtor's bid book: class `Bid` of
`src/model/agents.py`, with bidder and property referred to by id.
`Bid.__init__` defaults the mortgage to `0.0`. -/
structure Bid where
  bidder : ℕ
  property : ℕ
  price : ℚ
  mortgage : ℚ
deriving DecidableEq, Repr

/-- An allocation produced by `Realtor.sell_homes`: class `Allocation` of
`src/model/agents.py`. -/
structure Allocation where
  property : ℕ
  successful_bidder : ℕ
  highest_bid : ℚ
  second_highest_bid : ℚ
  final_price : ℚ
deriving DecidableEq, Repr

/-! ### Realtor bid book and auction clearing (`Realtor.add_bid`, `Realtor.sell_homes`) -/

/-- The realtor's bid book `self.bids`, a `defaultdict(list)` mapping each
property to the list of bids received for it, modelled as an association
list in key-insertion order. -/
abbrev BidBook := List (ℕ × List Bid)

/-- Appending a bid to `self.bids[property]` with `defaultdict(list)`
semantics: an existing key keeps its position and gets the bid appended,
a missing key is inserted at the end with a one-element list. -/
def bookAppend (book : BidBook) (p : ℕ) (b : Bid) : BidBook :=
  match book with
  | [] => [(p, [b])]
  | (q, bs) :: rest =>
      if q = p then (q, bs ++ [b]) :: rest else (q, bs) :: bookAppend rest p b

/-- Realtor.add_bid: after the `isinstance` checks pass (the embedding is
typed, so they always do here), it constructs `Bid(bidder, property, price)`
— leaving the mortgage at its default `0.0` — and appends it to the
property's bid list. -/
def add_bid (book : BidBook) (bidder property : ℕ) (price : ℚ) : BidBook :=
  bookAppend book property ⟨bidder, property, price, 0⟩

/-- Comparison used by `property_bids.sort(key=lambda x: x.price, reverse=True)`:
a stable sort into descending price order. -/
def bidDescLe (a b : Bid) : Bool := decide (b.price ≤ a.price)

/-- Clearing of a single property inside `Realtor.sell_homes`: when the
property has at least one bid, sort its bids by price descending, take the
highest bid as winner, the second price (or `0`) and set the final price
to the highest price; a property with no bids yields no allocation. -/
def clearProperty (p : ℕ) (property_bids : List Bid) : Option Allocation :=
  match property_bids.mergeSort bidDescLe with
  | [] => none
  | highest_bid :: rest =>
      some { property := p
             successful_bidder := highest_bid.bidder
             highest_bid := highest_bid.price
             second_highest_bid :=
               match rest with
               | [] => 0
               | second :: _ => second.price
             final_price := highest_bid.price }

/-- Realtor.sell_homes: the list of allocations produced from the bid
book, one per property with at least one bid, in key order.  (The source
also hands the allocations to `complete_transactions` and then clears the
book; the clearing outcome itself is this list.) -/
def sell_homes (book : BidBook) : List Allocation :=
  book.filterMap (fun pb => clearProperty pb.1 pb.2)

/-- Highest price among a list of bids (`0` when there are none), used to
state the auction claims. -/
def maxPriceOf (bids : List Bid) : ℚ :=
  ((bids.map Bid.price).maximum).unbot' 0

/-- Second-highest price among a list of bids, counting multiplicity:
the maximum after deleting one occurrence of the maximal price, and `0`
when fewer than two bids exist. -/
def secondPriceOf (bids : List Bid) : ℚ :=
  (((bids.map Bid.price).erase (maxPriceOf bids)).maximum).unbot' 0

/-- Concrete bid list from the spec scenario: bids of 100, 150, 120 by
three distinct bidders on one parcel. -/
def demoBids : List Bid := [⟨11, 1, 100, 0⟩, ⟨12, 1, 150, 0⟩, ⟨13, 1, 120, 0⟩]

/-- Concrete bid book: parcel 1 has the three demo bids, parcel 2 has none. -/
def demoBook : BidBook := [(1, demoBids), (2, [])]

/-! ### Ownership transfer (`Realtor.transfer_property`, the per-allocation
settlement step of `Realtor.complete_transactions`) -/

/-- Ownership state after settling one allocation: the buyer's and the
seller's `properties_owned` lists (land ids) and the parcel's `owner`
back-reference.  The later buyer/seller dispatch of
`complete_transactions` (`handle_person_purchase`,
`handle_seller_departure`) changes residency and agent membership but
never touches either `properties_owned` list, so this is also the
ownership state at the end of the settlement. -/
structure TransferResult where
  buyerOwned : List ℕ
  sellerOwned : List ℕ
  owner : Option ℕ
deriving DecidableEq, Repr

/-- Realtor.transfer_property: append the parcel to the buyer's
`properties_owned`, delete it from the seller's with Python
`list.remove` — which removes only the FIRST occurrence and raises
`ValueError` (modelled `none`) when the parcel is absent — and point the
parcel's `owner` reference at the buyer. -/
def transfer_property (sellerOwned buyerOwned : List ℕ) (sale_property buyer : ℕ) :
    Option TransferResult :=
  let buyerOwned1 := buyerOwned ++ [sale_property]
  if sale_property ∈ sellerOwned then
    some ⟨buyerOwned1, sellerOwned.erase sale_property, some buyer⟩
  else
    none

/-! ### Bank financing and newcomer bidding (`Bank.get_max_bid`, `Person.bid`) -/

/-- Person.individual_wealth_adjustment: a policy stub, currently the
fixed constant `0.002`. -/
def individual_wealth_adjustment : ℚ := 2 / 1000

/-- Person.borrowing_rate: the model target rate plus the individual
wealth adjustment. -/
def borrowing_rate (r_target : ℚ) : ℚ := r_target + individual_wealth_adjustment

/-- Person.get_max_mortgage_share: the constant `0.8`. -/
def get_max_mortgage_share : ℚ := 8 / 10

/-- Person.get_max_mortgage: `0.28 * (wage + r * S) / r_prime`.  The model
rate `r_prime` is a positive model parameter; the rational division is
total here. -/
def get_max_mortgage (wage r_prime S r : ℚ) : ℚ :=
  28 / 100 * (wage + r * S) / r_prime

/-- Bank.get_max_bid: discounts the mortgage-period annuity of net rent
`R_N` by `(1 - m) * r_target / delta ** T - p_dot`.  The Python function
divides by `r`, by `delta ** T` and by that denominator in turn, and
raises `ZeroDivisionError` (here `none`) when any of them is zero; there
is no guard.  `transport_cost` is accepted and ignored, as in the source. -/
def get_max_bid (T : ℕ) (delta p_dot : ℚ) (R_N r r_target m transport_cost : ℚ) :
    Option ℚ :=
  if r = 0 then none
  else
    let R_NT := ((1 + r) ^ T - 1) / r * R_N
    if delta ^ T = 0 then none
    else
      let denom := (1 - m) * r_target / delta ^ T - p_dot
      if denom = 0 then none
      else some (R_NT / denom)

/-- The mortgage-financed amount chosen in `Person.bid` for a maximum bid
`P_max_bid`: `m * P_max_bid` when `m * P_max_bid < m`, else the maximum
mortgage `M`. -/
def bid_mortgage (m M P_max_bid : ℚ) : ℚ :=
  if m * P_max_bid < m then m * P_max_bid else M

/-- The bid price computed in `Person.bid`: in either branch the minimum
of the financed amount plus savings and the bank maximum bid. -/
def bid_price (S m M P_max_bid : ℚ) : ℚ :=
  if m * P_max_bid < m then min (m * P_max_bid + S) P_max_bid
  else min (M + S) P_max_bid

/-- Person.bid submits a bid to the realtor iff the computed price is
strictly positive (`if bid.price > 0`). -/
def bid_submitted (S m M P_max_bid : ℚ) : Bool :=
  decide (bid_price S m M P_max_bid > 0)

/-- A property on the realtor's `sale_listing`, with the two parcel
attributes `Person.bid` reads: net rent and transport cost. -/
structure SaleProperty where
  id : ℕ
  net_rent : ℚ
  transport_cost : ℚ
deriving DecidableEq, Repr

/-- The per-property loop of `Person.bid` over the sale listing, after the
loop-invariant quantities `r` (borrowing rate), `m` (max mortgage share),
`M` (max mortgage) and `S` (savings) have been computed: ask the bank for
the maximum bid (propagating its `ZeroDivisionError` as `none`), compute
the bid price, and submit `(property, price)` to the realtor iff the
price is strictly positive.  Returns the submitted bids in listing
order. -/
def person_bid_go (T : ℕ) (delta p_dot r_target : ℚ) (r m M S : ℚ) :
    List SaleProperty → Option (List (ℕ × ℚ))
  | [] => some []
  | prop :: rest => do
      let P_max_bid ← get_max_bid T delta p_dot prop.net_rent r r_target m prop.transport_cost
      let P_bid := bid_price S m M P_max_bid
      let others ← person_bid_go T delta p_dot r_target r m M S rest
      pure (if P_bid > 0 then (prop.id, P_bid) :: others else others)

/-- Person.bid: computes `r`, `m` and `M` once and runs the bidding loop
over the sale listing. -/
def person_bid (T : ℕ) (delta p_dot r_target r_prime wage S : ℚ)
    (sale_listing : List SaleProperty) : Option (List (ℕ × ℚ)) :=
  person_bid_go T delta p_dot r_target (borrowing_rate r_target) get_max_mortgage_share
    (get_max_mortgage wage r_prime S (borrowing_rate r_target)) S sale_listing

/-- Specification-side description of the bidding pass, following the
spec wording: for each listed property the bid price is the minimum of
the mortgage-financed amount plus savings and the bank maximum bid, and a
bid is submitted iff that price is strictly positive. -/
def person_bid_from_spec (T : ℕ) (delta p_dot r_target : ℚ) (r m M S : ℚ)
    (sale_listing : List SaleProperty) : List (ℕ × ℚ) :=
  sale_listing.filterMap (fun prop =>
    match get_max_bid T delta p_dot prop.net_rent r r_target m prop.transport_cost with
    | none => none
    | some P_max_bid =>
        let price := min (bid_mortgage m M P_max_bid + S) P_max_bid
        if price > 0 then some (prop.id, price) else none)

/-! ### Person lifecycle (`Person.step`, `Person.remove`) -/

/-- Modelled from the spec: the workforce registry (class `Workforce`,
referenced as `self.model.workforce` but not among the files under
`src/`) — three membership sets, newcomers, workers and retiring, keyed
by agent id, with idempotent `add`, no-op-if-absent `remove` and
`remove_from_all`. -/
structure Workforce where
  newcomers : Finset ℕ
  workers : Finset ℕ
  retiring : Finset ℕ
deriving DecidableEq

/-- Modelled from the spec: `Workforce.remove_from_all`, used on permanent
removal of an agent. -/
def Workforce.remove_from_all (w : Workforce) (uid : ℕ) : Workforce :=
  ⟨w.newcomers.erase uid, w.workers.erase uid, w.retiring.erase uid⟩

/-- Model-level state read and written by `Person.step` and
`Person.remove`: the workforce registry, the scheduler's global agent
registry `_agents` and its Person breed partition, the grid membership,
the model's removed-agent counter and the realtor's sale listing. -/
structure SimState where
  workforce : Workforce
  schedule_agents : Finset ℕ
  schedule_people : Finset ℕ
  grid_agents : Finset ℕ
  removed_agents : ℕ
  sale_listing : List ℕ
deriving DecidableEq

/-- Per-person state touched by `Person.step`: the id, the step counter,
the working period, savings, the residence (a land id or none) and the
owned-property list. -/
structure PersonState where
  unique_id : ℕ
  count : ℕ
  working_period : ℕ
  savings : ℚ
  residence : Option ℕ
  properties_owned : List ℕ
deriving DecidableEq, Repr

/-- Person.remove: increments the model's removed-agent counter, removes
the agent from every workforce set, from the scheduler (`del` raises
`KeyError`, modelled `none`, when the id is absent) and from the grid. -/
def person_remove (p : PersonState) (st : SimState) : Option SimState :=
  if p.unique_id ∈ st.schedule_agents ∧ p.unique_id ∈ st.schedule_people then
    some { st with removed_agents := st.removed_agents + 1,
                   workforce := st.workforce.remove_from_all p.unique_id,
                   schedule_agents := st.schedule_agents.erase p.unique_id,
                   schedule_people := st.schedule_people.erase p.unique_id,
                   grid_agents := st.grid_agents.erase p.unique_id }
  else none

/-- Person.step.  Counters are incremented first; a newcomer with no
residence is removed; a resident non-retiring person either transitions
to retiring (listing an owned residence for sale) or joins/leaves the
workers set depending on whether the wage premium beats the residence's
transport cost, and then accrues savings; the remaining branches only
log.  Returns `none` for an uncaught exception, otherwise the person's
state after the step (`none` inside when the person was removed) and the
updated model state. -/
def person_step (wage_premium savings_per_step : ℚ) (working_periods : ℕ)
    (transport_cost : ℕ → ℚ) (p : PersonState) (st : SimState) :
    Option (Option PersonState × SimState) :=
  let p1 := { p with count := p.count + 1, working_period := p.working_period + 1 }
  if p1.unique_id ∈ st.workforce.newcomers then
    if p1.residence = none then
      if p1.count > 0 then
        (person_remove p1 st).map (fun st1 => (none, st1))
      else
        some (some p1, st)
    else
      some (some p1, st)
  else
    match p1.residence with
    | some rid =>
        if p1.unique_id ∉ st.workforce.retiring then
          let step1 : PersonState × SimState :=
            if p1.working_period > working_periods then
              let wf := { st.workforce with
                          retiring := insert p1.unique_id st.workforce.retiring }
              let st1 := { st with workforce := wf }
              if rid ∈ p1.properties_owned then
                (p1, { st1 with sale_listing := st1.sale_listing ++ [rid] })
              else
                (p1, st1)
            else
              if wage_premium > transport_cost rid then
                (p1, { st with workforce := { st.workforce with
                        workers := insert p1.unique_id st.workforce.workers } })
              else
                (p1, { st with workforce := { st.workforce with
                        workers := st.workforce.workers.erase p1.unique_id } })
          some (some { step1.1 with savings := step1.1.savings + savings_per_step },
                step1.2)
        else
          some (some p1, st)
    | none =>
        some (some p1, st)

/-! ### Firm dynamics (`Firm.step`, `Firm.get_N`) -/

/-- State of the representative firm: the configuration parameters set in
`Firm.__init__` and the dynamic quantities reassigned by `Firm.step`.
Real-valued, with the Cobb-Douglas exponents applied through real powers
(Python float `**`). -/
structure FirmState where
  subsistence_wage : ℝ
  alpha : ℝ
  beta : ℝ
  gamma : ℝ
  price_of_output : ℝ
  seed_population : ℝ
  density : ℝ
  A : ℝ
  overhead : ℝ
  mult : ℝ
  c : ℝ
  adjN : ℝ
  adjk : ℝ
  adjn : ℝ
  adjF : ℝ
  adjw : ℝ
  dist : ℝ
  r : ℝ
  y : ℝ
  Y : ℝ
  F : ℝ
  k : ℝ
  n : ℝ
  N : ℝ
  agglomeration_population : ℝ
  wage_premium : ℝ
  wage : ℝ
  MPL : ℝ
  wage_target : ℝ
  F_target : ℝ
  y_target : ℝ
  k_target : ℝ

open Classical in
/-- Firm.get_N: effective population from the current worker count,
quadrupled when the city is not centred on the grid, and with an exact
zero replaced by one as the divide-by-zero guard. -/
noncomputable def get_N (density : ℝ) (center_city : Bool) (worker_agent_count : ℕ) : ℝ :=
  let N : ℝ :=
    if center_city then density * worker_agent_count
    else 4 * density * worker_agent_count
  if N = 0 then 1 else N

/-- The population channel of `Firm.step`: recompute `N`, the
agglomeration population and the per-firm labour `n`. -/
noncomputable def update_population (center_city : Bool) (worker_agent_count : ℕ)
    (s : FirmState) : FirmState :=
  let N := get_N s.density center_city worker_agent_count
  let agglomeration_population := s.mult * N + s.seed_population
  let n := N / s.F
  { s with N := N, agglomeration_population := agglomeration_population, n := n }

/-- The output channel of `Firm.step`: the Cobb-Douglas output from the
agglomeration population, capital and per-firm labour. -/
noncomputable def update_output (s : FirmState) : FirmState :=
  { s with y := s.A * s.agglomeration_population ^ s.gamma * s.k ^ s.alpha * s.n ^ s.beta }

/-- The wage channel of `Firm.step`: the marginal product of labour, the
implied target wage, the damped wage update and the resulting wage
premium. -/
noncomputable def update_wage (s : FirmState) : FirmState :=
  let MPL := s.beta * s.y / s.n
  let wage_target := s.subsistence_wage + (MPL - s.subsistence_wage) / (1 + s.overhead)
  let wage := (1 - s.adjw) * s.wage + s.adjw * wage_target
  let wage_premium := wage - s.subsistence_wage
  { s with MPL := MPL, wage_target := wage_target, wage := wage,
           wage_premium := wage_premium }

/-- The firm-count channel of `Firm.step`: the target firm count from the
ratio of target wage to the freshly updated wage, then a damped update. -/
noncomputable def update_firm_count (s : FirmState) : FirmState :=
  let F_target := s.F * s.wage_target / s.wage
  let F := (1 - s.adjF) * s.F + s.adjF * F_target
  { s with F_target := F_target, F := F }

/-- The capital channel of `Firm.step`: target output at the output
price, the implied target capital, then a damped update. -/
noncomputable def update_capital (s : FirmState) : FirmState :=
  let y_target := s.price_of_output * s.A * s.agglomeration_population ^ s.gamma *
    s.k ^ s.alpha * s.n ^ s.beta
  let k_target := s.alpha * y_target / s.r
  let k := (1 - s.adjk) * s.k + s.adjk * k_target
  { s with y_target := y_target, k_target := k_target, k := k }

/-- Firm.step, transcribed line by line from the active statements of the
source: population and output, then wage, then firm count, then capital,
each later line reading the values computed above it. -/
noncomputable def Firm_step (center_city : Bool) (worker_agent_count : ℕ)
    (s : FirmState) : FirmState :=
  let N := get_N s.density center_city worker_agent_count
  let agglomeration_population := s.mult * N + s.seed_population
  let n := N / s.F
  let y := s.A * agglomeration_population ^ s.gamma * s.k ^ s.alpha * n ^ s.beta
  let MPL := s.beta * y / n
  let wage_target := s.subsistence_wage + (MPL - s.subsistence_wage) / (1 + s.overhead)
  let wage := (1 - s.adjw) * s.wage + s.adjw * wage_target
  let wage_premium := wage - s.subsistence_wage
  let F_target := s.F * wage_target / wage
  let F := (1 - s.adjF) * s.F + s.adjF * F_target
  let y_target := s.price_of_output * s.A * agglomeration_population ^ s.gamma *
    s.k ^ s.alpha * n ^ s.beta
  let k_target := s.alpha * y_target / s.r
  let k := (1 - s.adjk) * s.k + s.adjk * k_target
  { s with N := N, agglomeration_population := agglomeration_population, n := n,
           y := y, MPL := MPL, wage_target := wage_target, wage := wage,
           wage_premium := wage_premium, F_target := F_target, F := F,
           y_target := y_target, k_target := k_target, k := k }

/-! ### Scheduler (`RandomActivationByBreed`, `src/model/schedule.py`) -/

/-- Modelled from the spec: one step of the injected seeded uniform
random source (`self.model.random`, Python's seeded generator, a library
object external to the repository), represented by a deterministic
linear-congruential next-state function.  The determinism results below
rely only on the next state being a function of the current state. -/
def rng_next (state : ℕ) : ℕ := (1103515245 * state + 12345) % 2147483648

/-- Draw an index below `bound` and advance the generator state, as the
random source's bounded draw does. -/
def randbelow (state bound : ℕ) : ℕ × ℕ :=
  let s1 := rng_next state
  (s1 % bound, s1)

/-- Swap two positions of a list (`x[i], x[j] = x[j], x[i]`); out-of-range
indices leave the list unchanged. -/
def listSwap {α : Type} (l : List α) (i j : ℕ) : List α :=
  match l.get? i, l.get? j with
  | some a, some b => (l.set i b).set j a
  | _, _ => l

/-- The Fisher-Yates loop of `random.shuffle`: for current index `i`
down to `1`, draw `j` below `i + 1` and swap positions `i` and `j`. -/
def shuffle_go {α : Type} : ℕ → List α → ℕ → List α × ℕ
  | 0, l, s => (l, s)
  | i + 1, l, s =>
      let js := randbelow s (i + 2)
      shuffle_go i (listSwap l (i + 1) js.1) js.2

/-- In-place shuffle of a list driven by the seeded generator state,
returning the shuffled list and the advanced state. -/
def shuffle {α : Type} (l : List α) (state : ℕ) : List α × ℕ :=
  shuffle_go (l.length - 1) l state

/-- RandomActivationByBreed.step_breed: list the breed's agent keys in
insertion order, shuffle them with the model's random source, then invoke
each agent's step in the shuffled order.  The per-agent step effect on
the simulation state is an arbitrary function `f`; the result is the
activation order, the advanced generator state and the final simulation
state. -/
def step_breed {σ : Type} (f : ℕ → σ → σ) (agent_keys : List ℕ) (state : ℕ)
    (st : σ) : List ℕ × ℕ × σ :=
  let sh := shuffle agent_keys state
  (sh.1, sh.2, sh.1.foldl (fun acc k => f k acc) st)

/-- The breed (agent class) of a scheduled agent. -/
inductive Breed where
  | land
  | person
  | firm
  | bank
  | investor
  | realtor
deriving DecidableEq, Repr

/-- An agent object as the scheduler sees it: its `unique_id`, its class,
and a payload distinguishing distinct objects that share an id. -/
structure AgentRec where
  unique_id : ℕ
  breed : Breed
  payload : ℕ
deriving DecidableEq, Repr

/-- Python dict assignment `d[k] = v`: an existing key keeps its
insertion position and its value is overwritten; a missing key is
appended. -/
def dictSet {β : Type} (d : List (ℕ × β)) (k : ℕ) (v : β) : List (ℕ × β) :=
  match d with
  | [] => [(k, v)]
  | (k1, v1) :: rest =>
      if k1 = k then (k, v) :: rest else (k1, v1) :: dictSet rest k v

/-- Python dict lookup `d[k]` as an option. -/
def dictLookup {β : Type} (d : List (ℕ × β)) (k : ℕ) : Option β :=
  match d with
  | [] => none
  | (k1, v1) :: rest => if k1 = k then some v1 else dictLookup rest k

/-- Reading `agents_by_breed[breed]` with `defaultdict(dict)` semantics:
a missing breed reads as the empty dict. -/
def breedGet (d : List (Breed × List (ℕ × AgentRec))) (b : Breed) :
    List (ℕ × AgentRec) :=
  match d with
  | [] => []
  | (b1, m) :: rest => if b1 = b then m else breedGet rest b

/-- Writing `agents_by_breed[breed][k] = v` with `defaultdict(dict)`
semantics. -/
def breedDictSet (d : List (Breed × List (ℕ × AgentRec))) (b : Breed) (k : ℕ)
    (v : AgentRec) : List (Breed × List (ℕ × AgentRec)) :=
  match d with
  | [] => [(b, dictSet [] k v)]
  | (b1, m) :: rest =>
      if b1 = b then (b1, dictSet m k v) :: rest else (b1, m) :: breedDictSet rest b k v

/-- The scheduler's registries: `_agents` and `agents_by_breed`. -/
structure SchedulerState where
  agents : List (ℕ × AgentRec)
  agents_by_breed : List (Breed × List (ℕ × AgentRec))
deriving DecidableEq, Repr

/-- RandomActivationByBreed.add: plain dict assignments
`self._agents[agent.unique_id] = agent` and
`self.agents_by_breed[type(agent)][agent.unique_id] = agent` — no
presence check of any kind. -/
def schedule_add (st : SchedulerState) (a : AgentRec) : SchedulerState :=
  { agents := dictSet st.agents a.unique_id a,
    agents_by_breed := breedDictSet st.agents_by_breed a.breed a.unique_id a }

/-! ### Dynamic typing of `Bid.__init__` and the bid-book mortgage invariant -/

/-- A Python value as it may be passed into `Bid.__init__` or
`Realtor.add_bid`: an agent of some class, a number (int and float both
satisfy the numeric `isinstance` check) or a string. -/
inductive PyVal where
  | person (uid : ℕ)
  | investor (uid : ℕ)
  | land (uid : ℕ)
  | num (val : ℚ)
  | strv
deriving DecidableEq, Repr

/-- Result of `isinstance(x, Person)`. -/
def PyVal.isPerson : PyVal → Bool
  | .person _ => true
  | _ => false

/-- Result of `isinstance(x, Land)`. -/
def PyVal.isLand : PyVal → Bool
  | .land _ => true
  | _ => false

/-- Result of `isinstance(x, (float, int))`. -/
def PyVal.isNum : PyVal → Bool
  | .num _ => true
  | _ => false

/-- The `ValueError` messages `Bid.__init__` can raise. -/
inductive BidInitError where
  | bidderNotPerson
  | propertyNotLand
  | priceNotNumeric
  | mortgageNotNumeric
deriving DecidableEq, Repr

/-- A constructed `Bid` object, fields as passed. -/
structure BidObj where
  bidder : PyVal
  property : PyVal
  price : PyVal
  mortgage : PyVal
deriving DecidableEq, Repr

/-- Bid.__init__: the four `isinstance` guards in source order, then the
field assignments.  The `mortgage` parameter defaults to `0.0` at call
sites that omit it. -/
def bid_init (bidder property price mortgage : PyVal) : Except BidInitError BidObj :=
  if bidder.isPerson = false then .error .bidderNotPerson
  else if property.isLand = false then .error .propertyNotLand
  else if price.isNum = false then .error .priceNotNumeric
  else if mortgage.isNum = false then .error .mortgageNotNumeric
  else .ok ⟨bidder, property, price, mortgage⟩

/-- A bid book in which every stored bid has zero mortgage. -/
def BookMortgageZero (book : BidBook) : Prop :=
  ∀ q qs, (q, qs) ∈ book → ∀ x ∈ qs, x.mortgage = 0

/-- Concrete one-property sale listing for the C5 witness. -/
def demoListing : List SaleProperty := [⟨1, 1, 0⟩]

/-! ### Lemmas and theorems -/

lemma bidDescLe_trans : ∀ a b c : Bid, bidDescLe a b → bidDescLe b c → bidDescLe a c := by
  intro a b c hab hbc
  exact decide_eq_true (le_trans (of_decide_eq_true hbc) (of_decide_eq_true hab))

lemma bidDescLe_total : ∀ a b : Bid, bidDescLe a b || bidDescLe b a := by
  intro a b
  simp only [bidDescLe, Bool.or_eq_true, decide_eq_true_eq]
  exact le_total b.price a.price

/-- Clearing a nonempty bid list yields the allocation the spec describes:
winner realises the maximal price, the recorded second price is the
second-highest price, and the final price is the highest price. -/
lemma clearProperty_nonempty (p : ℕ) (bids : List Bid) (h : bids ≠ []) :
    ∃ highest ∈ bids, (∀ b ∈ bids, b.price ≤ highest.price) ∧
      clearProperty p bids =
        some ⟨p, highest.bidder, highest.price, secondPriceOf bids, highest.price⟩ := by
  have hperm : List.Perm (bids.mergeSort bidDescLe) bids := List.mergeSort_perm bids bidDescLe
  have hsorted : (bids.mergeSort bidDescLe).Pairwise (fun a b => bidDescLe a b) :=
    List.sorted_mergeSort bidDescLe_trans bidDescLe_total bids
  cases hs : bids.mergeSort bidDescLe with
  | nil =>
      rw [hs] at hperm
      exact absurd hperm.symm.eq_nil h
  | cons x t =>
      rw [hs] at hperm hsorted
      have hmax : (bids.map Bid.price).maximum = (x.price : WithBot ℚ) := by
        rw [List.maximum_eq_coe_iff]
        constructor
        · exact List.mem_map_of_mem _ (hperm.mem_iff.mp (List.mem_cons_self x t))
        · intro a ha
          rcases List.mem_map.mp ha with ⟨b, hb, rfl⟩
          rcases List.mem_cons.mp (hperm.mem_iff.mpr hb) with rfl | hbt
          · exact le_refl _
          · exact of_decide_eq_true ((List.pairwise_cons.mp hsorted).1 b hbt)
      have hmaxPrice : maxPriceOf bids = x.price := by
        rw [maxPriceOf, hmax]; rfl
      refine ⟨x, hperm.mem_iff.mp (List.mem_cons_self x t), ?_, ?_⟩
      · intro b hb
        rcases List.mem_cons.mp (hperm.mem_iff.mpr hb) with rfl | hbt
        · exact le_refl _
        · exact of_decide_eq_true ((List.pairwise_cons.mp hsorted).1 b hbt)
      · unfold clearProperty
        rw [hs]
        cases t with
        | nil =>
            have hz : secondPriceOf bids = 0 := by
              rw [secondPriceOf, hmaxPrice]
              have hone : bids.map Bid.price = [x.price] := by
                have hp : List.Perm (bids.map Bid.price) [x.price] := by
                  simpa using (hperm.map Bid.price).symm
                exact hp.eq_singleton
              rw [hone]
              simp
            rw [hz]
        | cons y rest =>
            have hsecond : secondPriceOf bids = y.price := by
              rw [secondPriceOf, hmaxPrice]
              have herase :
                  List.Perm ((bids.map Bid.price).erase x.price) ((y :: rest).map Bid.price) := by
                have h1 : List.Perm (bids.map Bid.price) ((x :: y :: rest).map Bid.price) :=
                  hperm.symm.map Bid.price
                have h2 := h1.erase x.price
                simpa using h2
              have htailsorted := (List.pairwise_cons.mp hsorted).2
              have heraseMax :
                  ((bids.map Bid.price).erase x.price).maximum = (y.price : WithBot ℚ) := by
                rw [List.maximum_eq_coe_iff]
                constructor
                · exact herase.mem_iff.mpr (List.mem_map_of_mem _ (List.mem_cons_self y rest))
                · intro a ha
                  rcases List.mem_map.mp (herase.mem_iff.mp ha) with ⟨b, hb, rfl⟩
                  rcases List.mem_cons.mp hb with rfl | hbt
                  · exact le_refl _
                  · exact of_decide_eq_true ((List.pairwise_cons.mp htailsorted).1 b hbt)
              rw [heraseMax]; rfl
            rw [hsecond]

/-- The property recorded on an allocation is the book key it was cleared
from. -/
lemma clearProperty_property {p : ℕ} {bids : List Bid} {a : Allocation}
    (h : clearProperty p bids = some a) : a.property = p := by
  unfold clearProperty at h
  split at h
  · cases h
  · cases h; rfl

lemma clearProperty_nil (p : ℕ) : clearProperty p [] = none := by
  unfold clearProperty
  simp

/-- Unfolding `sell_homes` over the first book entry. -/
lemma sell_homes_cons (q : ℕ) (qbids : List Bid) (rest : BidBook) :
    sell_homes ((q, qbids) :: rest) =
      (clearProperty q qbids).toList ++ sell_homes rest := by
  rw [sell_homes, List.filterMap_cons, sell_homes]
  cases clearProperty q qbids <;> rfl

/-- A book whose keys avoid `p` produces no allocation for `p`. -/
lemma sell_homes_countP_zero (book : BidBook) (p : ℕ)
    (h : p ∉ book.map Prod.fst) :
    (sell_homes book).countP (fun a => a.property == p) = 0 := by
  induction book with
  | nil => rfl
  | cons hd rest ih =>
      obtain ⟨q, qbids⟩ := hd
      have hq : q ≠ p := by
        intro hqp; exact h (by simp [hqp])
      have hrest : p ∉ rest.map Prod.fst := fun hmem => h (by simp [hmem])
      rw [sell_homes_cons]
      cases hc : clearProperty q qbids with
      | none => simpa using ih hrest
      | some a =>
          have hfalse : (a.property == p) = false := by
            have := clearProperty_property hc
            simp [this, hq]
          have hrec := ih hrest
          simp only [Option.toList_some, List.singleton_append, List.countP_cons, hfalse]
          simp [hrec]

/-- With duplicate-free keys, an association-list key determines its value. -/
lemma keys_nodup_lookup_unique (book : BidBook)
    (h : (book.map Prod.fst).Nodup) {p : ℕ} {bs₁ bs₂ : List Bid}
    (h₁ : (p, bs₁) ∈ book) (h₂ : (p, bs₂) ∈ book) : bs₁ = bs₂ := by
  induction book with
  | nil => cases h₁
  | cons hd rest ih =>
      obtain ⟨q, qbids⟩ := hd
      rw [List.map_cons, List.nodup_cons] at h
      rcases List.mem_cons.mp h₁ with he₁ | he₁ <;>
        rcases List.mem_cons.mp h₂ with he₂ | he₂
      · injection he₁ with hq₁ hb₁
        injection he₂ with hq₂ hb₂
        rw [hb₁, hb₂]
      · injection he₁ with hq₁ hb₁
        subst hq₁
        exact absurd (by simpa using List.mem_map_of_mem Prod.fst he₂) h.1
      · injection he₂ with hq₂ hb₂
        subst hq₂
        exact absurd (by simpa using List.mem_map_of_mem Prod.fst he₁) h.1
      · exact ih h.2 he₁ he₂

/-- C1: for every property in the realtor's bid book with at least one bid,
`sell_homes` produces exactly one allocation, whose successful bidder is
the bidder of a highest-price bid, whose `highest_bid` is that highest
price, whose `second_highest_bid` is the second-highest bid price (`0` if
there is only one bid), and whose `final_price` equals the highest price;
a property with no bids produces no allocation. -/
theorem sell_homes_auction_spec (book : BidBook)
    (hkeys : (book.map Prod.fst).Nodup)
    (p : ℕ) (pbids : List Bid) (hmem : (p, pbids) ∈ book) :
    ((sell_homes book).countP (fun a => a.property == p) =
      if pbids.isEmpty then 0 else 1) ∧
    ∀ a ∈ sell_homes book, a.property = p →
      ∃ highest ∈ pbids, (∀ b ∈ pbids, b.price ≤ highest.price) ∧
        a = ⟨p, highest.bidder, highest.price, secondPriceOf pbids, highest.price⟩ := by
  constructor
  · revert hkeys hmem
    induction book with
    | nil => intro hkeys hmem; cases hmem
    | cons hd rest ih =>
        intro hkeys hmem
        obtain ⟨q, qbids⟩ := hd
        rw [List.map_cons, List.nodup_cons] at hkeys
        rw [sell_homes_cons]
        rcases List.mem_cons.mp hmem with he | he
        · injection he with hq hb
          subst hq
          subst hb
          have hzero : (sell_homes rest).countP (fun a => a.property == p) = 0 :=
            sell_homes_countP_zero rest p (by simpa using hkeys.1)
          by_cases hp : pbids = []
          · subst hp
            rw [clearProperty_nil]
            simpa using hzero
          · obtain ⟨highest, _, _, hclear⟩ := clearProperty_nonempty p pbids hp
            rw [hclear]
            have hne : pbids.isEmpty = false := by simpa using hp
            rw [hne]
            simp only [Option.toList_some, List.singleton_append, List.countP_cons, if_false]
            simp [hzero]
        · have hqp : q ≠ p := by
            intro h
            subst h
            exact hkeys.1 (by simpa using List.mem_map_of_mem Prod.fst he)
          have htail := ih hkeys.2 he
          cases hc : clearProperty q qbids with
          | none => simpa using htail
          | some a =>
              have hfalse : (a.property == p) = false := by
                have := clearProperty_property hc
                simp [this, hqp]
              simp only [Option.toList_some, List.singleton_append, List.countP_cons, hfalse]
              simp [htail]
  · intro a ha hap
    rcases List.mem_filterMap.mp ha with ⟨⟨q, qbids⟩, hqmem, hclear⟩
    have hq : q = p := by rw [← hap, clearProperty_property hclear]
    subst hq
    have hbs : qbids = pbids := keys_nodup_lookup_unique book hkeys hqmem hmem
    subst hbs
    have hne : qbids ≠ [] := by
      intro h; subst h; rw [clearProperty_nil] at hclear; cases hclear
    obtain ⟨highest, hhmem, hmax, hclear'⟩ := clearProperty_nonempty q qbids hne
    refine ⟨highest, hhmem, hmax, ?_⟩
    rw [hclear'] at hclear
    exact (Option.some.inj hclear).symm

/-- Witness for C1 at a concrete bid book. -/
theorem sell_homes_auction_spec_witness :
    ((sell_homes demoBook).countP (fun a => a.property == 1) =
      if demoBids.isEmpty then 0 else 1) ∧
    ∀ a ∈ sell_homes demoBook, a.property = 1 →
      ∃ highest ∈ demoBids, (∀ b ∈ demoBids, b.price ≤ highest.price) ∧
        a = ⟨1, highest.bidder, highest.price, secondPriceOf demoBids, highest.price⟩ :=
  sell_homes_auction_spec demoBook (by decide) 1 demoBids (by decide)

/-- C2 counterexample: with the parcel present twice in the seller's
list and absent from the buyer's — the stated precondition — the parcel
is still in the seller's list after the transfer, because `list.remove`
deletes only one occurrence. -/
theorem transfer_property_duplicate_counterexample :
    7 ∈ ([7, 7] : List ℕ) ∧ 7 ∉ ([] : List ℕ) ∧
    ∃ r, transfer_property [7, 7] [] 7 42 = some r ∧ 7 ∈ r.sellerOwned := by
  decide

/-- C2 (amended): when the sold parcel appears exactly once in the
seller's `properties_owned` and not in the buyer's, after
`transfer_property` the parcel is in the buyer's list, is no longer in
the seller's list (so never in both), and the parcel's owner reference is
the buyer. -/
theorem transfer_property_exclusive (sellerOwned buyerOwned : List ℕ)
    (sale_property buyer : ℕ)
    (hone : sellerOwned.count sale_property = 1)
    (hbuy : sale_property ∉ buyerOwned) :
    ∃ r, transfer_property sellerOwned buyerOwned sale_property buyer = some r ∧
      sale_property ∈ r.buyerOwned ∧ sale_property ∉ r.sellerOwned ∧
      r.owner = some buyer := by
  have hmem : sale_property ∈ sellerOwned := by
    rw [← List.count_pos_iff]
    omega
  refine ⟨⟨buyerOwned ++ [sale_property], sellerOwned.erase sale_property, some buyer⟩,
    ?_, ?_, ?_, rfl⟩
  · unfold transfer_property
    rw [if_pos hmem]
  · simp
  · rw [← List.count_eq_zero]
    rw [List.count_erase_self]
    omega

/-- Witness for C2 (amended) at concrete ownership lists. -/
theorem transfer_property_exclusive_witness :
    ∃ r, transfer_property [5, 7] [9] 7 42 = some r ∧
      7 ∈ r.buyerOwned ∧ 7 ∉ r.sellerOwned ∧ r.owner = some 42 :=
  transfer_property_exclusive [5, 7] [9] 7 42 (by decide) (by decide)

lemma bid_price_le_max (S m M P_max_bid : ℚ) :
    bid_price S m M P_max_bid ≤ P_max_bid := by
  unfold bid_price
  split
  · exact min_le_right _ _
  · exact min_le_right _ _

lemma bid_price_eq_min (S m M P_max_bid : ℚ) :
    bid_price S m M P_max_bid = min (bid_mortgage m M P_max_bid + S) P_max_bid := by
  by_cases hc : m * P_max_bid < m <;> simp [bid_price, bid_mortgage, hc]

/-- C3 counterexample.  First part: when the discount denominator is
exactly zero the division raises (`none`) instead of yielding an invalid
price.  Second part: with negative net rent a strictly negative
denominator yields a strictly positive price and `Person.bid` submits a
bid. -/
theorem get_max_bid_nonpos_denominator_counterexample :
    ((1 - (1 : ℚ) / 2) * (1 / 10) / (1 : ℚ) ^ 2 - 1 / 20 ≤ 0 ∧
      get_max_bid 2 1 (1 / 20) 1 (1 / 20) (1 / 10) (1 / 2) 0 = none) ∧
    ((1 - (4 : ℚ) / 5) * (1 / 10) / (1 : ℚ) ^ 1 - 1 / 25 < 0 ∧
      get_max_bid 1 1 (1 / 25) (-1) (1 / 10) (1 / 10) (4 / 5) 0 = some 50 ∧
      bid_submitted 0 (4 / 5) 10 50 = true) := by
  refine ⟨⟨by norm_num, ?_⟩, ⟨by norm_num, ?_, ?_⟩⟩
  · norm_num [get_max_bid]
  · norm_num [get_max_bid]
  · norm_num [bid_submitted, bid_price]

/-- C3 (amended): for a strictly negative discount denominator, a
positive borrowing rate, a nonzero `delta ^ T` and non-negative net rent,
`get_max_bid` returns a non-positive price without raising, and
`Person.bid` submits no bid at that price. -/
theorem get_max_bid_neg_denominator_no_bid (T : ℕ)
    (delta p_dot R_N r r_target m transport_cost S M : ℚ)
    (hr : 0 < r) (hR : 0 ≤ R_N) (hdT : delta ^ T ≠ 0)
    (hden : (1 - m) * r_target / delta ^ T - p_dot < 0) :
    ∃ P_max_bid,
      get_max_bid T delta p_dot R_N r r_target m transport_cost = some P_max_bid ∧
      P_max_bid ≤ 0 ∧ bid_submitted S m M P_max_bid = false := by
  have hrne : r ≠ 0 := ne_of_gt hr
  have hdenne : (1 - m) * r_target / delta ^ T - p_dot ≠ 0 := ne_of_lt hden
  have hRNT : 0 ≤ ((1 + r) ^ T - 1) / r * R_N := by
    have hbase : (1 : ℚ) ≤ 1 + r := by linarith
    have hpow : (1 : ℚ) ≤ (1 + r) ^ T := by
      calc (1 : ℚ) = 1 ^ T := (one_pow T).symm
      _ ≤ (1 + r) ^ T := pow_le_pow_left₀ (by norm_num) hbase T
    have : 0 ≤ ((1 + r) ^ T - 1) / r := div_nonneg (by linarith) hr.le
    exact mul_nonneg this hR
  refine ⟨((1 + r) ^ T - 1) / r * R_N / ((1 - m) * r_target / delta ^ T - p_dot),
    ?_, ?_, ?_⟩
  · unfold get_max_bid
    rw [if_neg hrne, if_neg hdT, if_neg hdenne]
  · exact div_nonpos_of_nonneg_of_nonpos hRNT hden.le
  · have hple := bid_price_le_max S m M
      (((1 + r) ^ T - 1) / r * R_N / ((1 - m) * r_target / delta ^ T - p_dot))
    have hnp : ¬ (0 < bid_price S m M
        (((1 + r) ^ T - 1) / r * R_N / ((1 - m) * r_target / delta ^ T - p_dot))) := by
      have := div_nonpos_of_nonneg_of_nonpos hRNT hden.le
      exact not_lt.mpr (le_trans hple this)
    unfold bid_submitted
    exact decide_eq_false hnp

/-- Witness for C3 (amended) at concrete financing parameters. -/
theorem get_max_bid_neg_denominator_no_bid_witness :
    ∃ P_max_bid,
      get_max_bid 1 1 (1 / 25) 1 (1 / 10) (1 / 10) (4 / 5) 0 = some P_max_bid ∧
      P_max_bid ≤ 0 ∧ bid_submitted 3 (4 / 5) 10 P_max_bid = false :=
  get_max_bid_neg_denominator_no_bid 1 1 (1 / 25) 1 (1 / 10) (1 / 10) (4 / 5) 0 3 10
    (by norm_num) (by norm_num) (by norm_num) (by norm_num)

/-- C5: whenever `Person.bid` completes (no bank exception), the bids it
submitted are exactly one per listed property whose price — the minimum
of the mortgage-financed amount plus savings and the bank maximum bid —
is strictly positive, carrying that price; in particular every submitted
price is strictly positive. -/
theorem person_bid_price_spec (T : ℕ) (delta p_dot r_target r_prime wage S : ℚ)
    (sale_listing : List SaleProperty) (bids : List (ℕ × ℚ))
    (h : person_bid T delta p_dot r_target r_prime wage S sale_listing = some bids) :
    bids = person_bid_from_spec T delta p_dot r_target (borrowing_rate r_target)
      get_max_mortgage_share (get_max_mortgage wage r_prime S (borrowing_rate r_target))
      S sale_listing ∧
    ∀ pb ∈ bids, 0 < pb.2 := by
  unfold person_bid at h
  revert bids
  induction sale_listing with
  | nil =>
      intro bids h
      rw [person_bid_go] at h
      cases h
      exact ⟨rfl, by intro pb hpb; cases hpb⟩
  | cons prop rest ih =>
      intro bids h
      rw [person_bid_go] at h
      cases hg : get_max_bid T delta p_dot prop.net_rent (borrowing_rate r_target) r_target
          get_max_mortgage_share prop.transport_cost with
      | none => rw [hg] at h; cases h
      | some P_max_bid =>
          rw [hg] at h
          simp only [Option.bind_eq_bind, Option.some_bind] at h
          cases hrest : person_bid_go T delta p_dot r_target (borrowing_rate r_target)
              get_max_mortgage_share
              (get_max_mortgage wage r_prime S (borrowing_rate r_target)) S rest with
          | none => rw [hrest] at h; cases h
          | some others =>
              rw [hrest] at h
              simp only [Option.some_bind, Option.pure_def, Option.some.injEq] at h
              rw [bid_price_eq_min] at h
              obtain ⟨hspec, hpos⟩ := ih others hrest
              rw [person_bid_from_spec] at hspec
              simp only [person_bid_from_spec, List.filterMap_cons, hg]
              by_cases hp : 0 < min (bid_mortgage get_max_mortgage_share
                  (get_max_mortgage wage r_prime S (borrowing_rate r_target)) P_max_bid + S)
                  P_max_bid
              · rw [if_pos hp] at h
                subst h
                refine ⟨?_, ?_⟩
                · rw [if_pos hp, hspec]
                · intro pb hpb
                  rcases List.mem_cons.mp hpb with rfl | hmem
                  · exact hp
                  · exact hpos pb hmem
              · rw [if_neg hp] at h
                subst h
                rw [if_neg hp]
                exact ⟨hspec, hpos⟩

/-- C4: a Person whose id is in the workforce newcomers set and whose
residence is none, and which is registered with the scheduler, is removed
by its own `step()`: the step returns no surviving person state, the id
is absent from the scheduler registry afterwards, and the removed-agent
counter increases by one. -/
theorem newcomer_without_residence_removed (wage_premium savings_per_step : ℚ)
    (working_periods : ℕ) (transport_cost : ℕ → ℚ) (p : PersonState) (st : SimState)
    (hnew : p.unique_id ∈ st.workforce.newcomers) (hres : p.residence = none)
    (hsch : p.unique_id ∈ st.schedule_agents) (hppl : p.unique_id ∈ st.schedule_people) :
    ∃ st1, person_step wage_premium savings_per_step working_periods transport_cost p st
        = some (none, st1) ∧
      p.unique_id ∉ st1.schedule_agents ∧
      st1.removed_agents = st.removed_agents + 1 := by
  simp only [person_step, person_remove]
  rw [if_pos hnew, if_pos hres, if_pos (Nat.succ_pos p.count),
    if_pos (And.intro hsch hppl)]
  refine ⟨_, rfl, ?_, rfl⟩
  exact Finset.not_mem_erase _ _

/-- Witness for C4 at a concrete one-newcomer model state. -/
theorem newcomer_without_residence_removed_witness :
    ∃ st1, person_step 0 1 45 (fun _ => 0) ⟨1, 0, 0, 0, none, []⟩
        ⟨⟨{1}, ∅, ∅⟩, {1}, {1}, {1}, 0, []⟩ = some (none, st1) ∧
      1 ∉ st1.schedule_agents ∧ st1.removed_agents = 0 + 1 :=
  newcomer_without_residence_removed 0 1 45 (fun _ => 0) ⟨1, 0, 0, 0, none, []⟩
    ⟨⟨{1}, ∅, ∅⟩, {1}, {1}, {1}, 0, []⟩ (by decide) rfl (by decide) (by decide)

/-- C6: `Firm.step` is exactly the composition of one update per channel
in the order population, output, wage, firm count, capital — so each
later channel consumes the values computed earlier in the same tick —
and the wage channel performs the partial adjustment
`wage := (1 - adjw) * wage + adjw * wage_target` with the target derived
from the marginal product of labour, while the firm-count and capital
channels each move a damped fraction toward their own freshly computed
targets. -/
theorem Firm_step_order_and_adjustment (center_city : Bool) (worker_agent_count : ℕ)
    (s : FirmState) :
    Firm_step center_city worker_agent_count s =
      update_capital (update_firm_count (update_wage (update_output
        (update_population center_city worker_agent_count s)))) ∧
    (∀ t : FirmState,
      (update_wage t).wage = (1 - t.adjw) * t.wage + t.adjw * (update_wage t).wage_target ∧
      (update_wage t).wage_target =
        t.subsistence_wage + (t.beta * t.y / t.n - t.subsistence_wage) / (1 + t.overhead)) ∧
    (∀ t : FirmState,
      (update_firm_count t).F =
        (1 - t.adjF) * t.F + t.adjF * (update_firm_count t).F_target ∧
      (update_firm_count t).F_target = t.F * t.wage_target / t.wage) ∧
    (∀ t : FirmState,
      (update_capital t).k = (1 - t.adjk) * t.k + t.adjk * (update_capital t).k_target ∧
      (update_capital t).k_target = t.alpha * (update_capital t).y_target / t.r) := by
  refine ⟨?_, fun _ => ⟨rfl, rfl⟩, fun _ => ⟨rfl, rfl⟩, fun _ => ⟨rfl, rfl⟩⟩
  simp only [Firm_step, update_population, update_output, update_wage,
    update_firm_count, update_capital]

/-- C7: two runs of `step_breed` over the same agent set with the random
source in the same seeded state produce the identical shuffled activation
order, and hence identical order-dependent side effects and final
state. -/
theorem step_breed_deterministic {σ : Type} (f : ℕ → σ → σ)
    (keys₁ keys₂ : List ℕ) (state₁ state₂ : ℕ) (st₁ st₂ : σ)
    (hkeys : keys₁ = keys₂) (hstate : state₁ = state₂) (hst : st₁ = st₂) :
    step_breed f keys₁ state₁ st₁ = step_breed f keys₂ state₂ st₂ := by
  subst hkeys
  subst hstate
  subst hst
  rfl

/-- Witness for C7 at a concrete agent set, seed state and effect. -/
theorem step_breed_deterministic_witness :
    step_breed (fun k acc => 10 * acc + k) [1, 2, 3] 42 0 =
      step_breed (fun k acc => 10 * acc + k) [1, 2, 3] 42 0 :=
  step_breed_deterministic (fun k acc => 10 * acc + k) [1, 2, 3] [1, 2, 3] 42 42 0 0
    rfl rfl rfl

lemma dictLookup_dictSet_self {β : Type} (d : List (ℕ × β)) (k : ℕ) (v : β) :
    dictLookup (dictSet d k v) k = some v := by
  induction d with
  | nil => simp [dictSet, dictLookup]
  | cons hd rest ih =>
      obtain ⟨k1, v1⟩ := hd
      by_cases hk : k1 = k
      · simp [dictSet, dictLookup, hk]
      · simp [dictSet, dictLookup, hk, ih]

lemma dictLookup_dictSet_other {β : Type} (d : List (ℕ × β)) (k k1 : ℕ) (v : β)
    (hne : k1 ≠ k) : dictLookup (dictSet d k v) k1 = dictLookup d k1 := by
  have hne2 : k ≠ k1 := Ne.symm hne
  induction d with
  | nil => simp [dictSet, dictLookup, hne2]
  | cons hd rest ih =>
      obtain ⟨k2, v2⟩ := hd
      by_cases hk : k2 = k
      · subst hk
        simp [dictSet, dictLookup, hne2]
      · by_cases hk1 : k2 = k1 <;> simp [dictSet, dictLookup, hk, hk1, hne, ih]

lemma breedGet_breedDictSet_self (d : List (Breed × List (ℕ × AgentRec))) (b : Breed)
    (k : ℕ) (v : AgentRec) : breedGet (breedDictSet d b k v) b = dictSet (breedGet d b) k v := by
  induction d with
  | nil => simp [breedDictSet, breedGet]
  | cons hd rest ih =>
      obtain ⟨b1, m⟩ := hd
      by_cases hb : b1 = b
      · simp [breedDictSet, breedGet, hb]
      · simp [breedDictSet, breedGet, hb, ih]

/-- C8 counterexample: registering a second, distinct agent object with an
already-registered `unique_id` and breed does not fail — it silently
replaces the earlier registration in both the global registry and the
breed partition. -/
theorem schedule_add_collision_counterexample :
    (AgentRec.mk 1 Breed.person 0) ≠ (AgentRec.mk 1 Breed.person 1) ∧
    (let st1 := schedule_add ⟨[], []⟩ ⟨1, Breed.person, 0⟩
     let st2 := schedule_add st1 ⟨1, Breed.person, 1⟩
     dictLookup st1.agents 1 = some ⟨1, Breed.person, 0⟩ ∧
     dictLookup st2.agents 1 = some ⟨1, Breed.person, 1⟩ ∧
     dictLookup (breedGet st2.agents_by_breed Breed.person) 1 =
       some ⟨1, Breed.person, 1⟩) := by
  decide

/-- C8 (amended): `add` never fails and never preserves an existing
registration under the same id — after `add(agent)` the agent registered
under `agent.unique_id`, in the global registry and in the agent's breed
partition, is the new agent, while every other id's registration is
unchanged. -/
theorem schedule_add_silent_replace (st : SchedulerState) (a : AgentRec) :
    dictLookup (schedule_add st a).agents a.unique_id = some a ∧
    dictLookup (breedGet (schedule_add st a).agents_by_breed a.breed) a.unique_id
      = some a ∧
    ∀ k, k ≠ a.unique_id →
      dictLookup (schedule_add st a).agents k = dictLookup st.agents k := by
  refine ⟨?_, ?_, ?_⟩
  · exact dictLookup_dictSet_self st.agents a.unique_id a
  · rw [schedule_add]
    rw [breedGet_breedDictSet_self]
    exact dictLookup_dictSet_self _ a.unique_id a
  · intro k hk
    exact dictLookup_dictSet_other st.agents a.unique_id k a hk

/-- Witness for C8 (amended) at a concrete collision. -/
theorem schedule_add_silent_replace_witness :
    dictLookup (schedule_add ⟨[(1, ⟨1, Breed.person, 0⟩)],
        [(Breed.person, [(1, ⟨1, Breed.person, 0⟩)])]⟩ ⟨1, Breed.person, 1⟩).agents 1
      = some ⟨1, Breed.person, 1⟩ ∧
    dictLookup (breedGet (schedule_add ⟨[(1, ⟨1, Breed.person, 0⟩)],
        [(Breed.person, [(1, ⟨1, Breed.person, 0⟩)])]⟩
        ⟨1, Breed.person, 1⟩).agents_by_breed Breed.person) 1
      = some ⟨1, Breed.person, 1⟩ ∧
    ∀ k, k ≠ 1 →
      dictLookup (schedule_add ⟨[(1, ⟨1, Breed.person, 0⟩)],
        [(Breed.person, [(1, ⟨1, Breed.person, 0⟩)])]⟩ ⟨1, Breed.person, 1⟩).agents k
      = dictLookup [(1, ⟨1, Breed.person, 0⟩)] k :=
  schedule_add_silent_replace ⟨[(1, ⟨1, Breed.person, 0⟩)],
    [(Breed.person, [(1, ⟨1, Breed.person, 0⟩)])]⟩ ⟨1, Breed.person, 1⟩

/-- C9 counterexample: a strictly negative numeric price passes all the
guards of `Bid.__init__` — there is no non-negativity check — so
construction succeeds instead of failing. -/
theorem bid_init_negative_price_counterexample :
    bid_init (.person 1) (.land 2) (.num (-5)) (.num 0)
      = .ok ⟨.person 1, .land 2, .num (-5), .num 0⟩ := by
  rfl

/-- C9 (amended): `Bid` construction succeeds exactly when the bidder is
a Person, the property is a Land and the price and mortgage are numeric —
wrong entity kinds and non-numeric values fail with an error, but the
price's sign is never checked. -/
theorem bid_init_guards (bidder property price mortgage : PyVal) :
    (∃ b, bid_init bidder property price mortgage = .ok b) ↔
      (bidder.isPerson ∧ property.isLand ∧ price.isNum ∧ mortgage.isNum) := by
  unfold bid_init
  by_cases h1 : bidder.isPerson = false <;>
    by_cases h2 : property.isLand = false <;>
      by_cases h3 : price.isNum = false <;>
        by_cases h4 : mortgage.isNum = false <;>
          simp [h1, h2, h3, h4]

lemma bookAppend_mortgage_zero (book : BidBook) (pr : ℕ) (nb : Bid)
    (hnb : nb.mortgage = 0) (hbook : BookMortgageZero book) :
    BookMortgageZero (bookAppend book pr nb) := by
  induction book with
  | nil =>
      intro q qs hmem x hx
      rw [bookAppend] at hmem
      rw [List.mem_singleton, Prod.mk.injEq] at hmem
      obtain ⟨rfl, rfl⟩ := hmem
      rcases List.mem_singleton.mp hx with rfl
      exact hnb
  | cons hd rest ih =>
      obtain ⟨q1, qs1⟩ := hd
      intro q qs hmem x hx
      rw [bookAppend] at hmem
      by_cases hq1 : q1 = pr
      · rw [if_pos hq1] at hmem
        rcases List.mem_cons.mp hmem with he | he
        · rw [Prod.mk.injEq] at he
          obtain ⟨rfl, rfl⟩ := he
          rcases List.mem_append.mp hx with hx1 | hx1
          · exact hbook q qs1 (List.mem_cons_self _ _) x hx1
          · rcases List.mem_singleton.mp hx1 with rfl
            exact hnb
        · exact hbook q qs (List.mem_cons_of_mem _ he) x hx
      · rw [if_neg hq1] at hmem
        rcases List.mem_cons.mp hmem with he | he
        · rw [Prod.mk.injEq] at he
          obtain ⟨rfl, rfl⟩ := he
          exact hbook q qs (List.mem_cons_self _ _) x hx
        · exact ih (fun q2 qs2 hm => hbook q2 qs2 (List.mem_cons_of_mem _ hm)) q qs he x hx

lemma add_bid_fold_mortgage_zero (ops : List (ℕ × ℕ × ℚ)) :
    ∀ (book : BidBook), BookMortgageZero book →
      BookMortgageZero (ops.foldl (fun bk op => add_bid bk op.1 op.2.1 op.2.2) book) := by
  induction ops with
  | nil => intro book hbook; exact hbook
  | cons op rest ih =>
      intro book hbook
      rw [List.foldl_cons]
      exact ih (add_bid book op.1 op.2.1 op.2.2)
        (bookAppend_mortgage_zero book op.2.1 ⟨op.1, op.2.1, op.2.2, 0⟩ rfl hbook)

/-- C10: every bid placed in the realtor's bid book through `add_bid`
carries the default mortgage `0`: `add_bid` builds a fresh
`Bid(bidder, property, price)` from the price alone, so the mortgage
computed inside `Person.bid` never reaches the book (nor the resulting
allocations, which have no mortgage field at all). -/
theorem add_bid_book_mortgage_zero (ops : List (ℕ × ℕ × ℚ)) (p : ℕ)
    (bs : List Bid) (b : Bid)
    (hmem : (p, bs) ∈ ops.foldl (fun bk op => add_bid bk op.1 op.2.1 op.2.2) [])
    (hb : b ∈ bs) : b.mortgage = 0 :=
  add_bid_fold_mortgage_zero ops [] (fun q qs hq => by cases hq) p bs hmem b hb

/-- Witness for C10 at a concrete sequence of `add_bid` calls. -/
theorem add_bid_book_mortgage_zero_witness :
    (Bid.mk 11 1 100 0).mortgage = 0 :=
  add_bid_book_mortgage_zero [(11, 1, 100), (12, 1, 150)] 1
    [⟨11, 1, 100, 0⟩, ⟨12, 1, 150, 0⟩] ⟨11, 1, 100, 0⟩ (by decide) (by decide)

/-- Witness for C5 at a concrete listing where the bank reports a maximum
bid of 50 and the person bids 50. -/
theorem person_bid_price_spec_witness :
    [((1 : ℕ), (50 : ℚ))] = person_bid_from_spec 1 1 0 (1 / 10) (borrowing_rate (1 / 10))
      get_max_mortgage_share (get_max_mortgage 100 (28 / 100) 0 (borrowing_rate (1 / 10)))
      0 demoListing ∧
    ∀ pb ∈ [((1 : ℕ), (50 : ℚ))], 0 < pb.2 :=
  person_bid_price_spec 1 1 0 (1 / 10) (28 / 100) 100 0 demoListing [(1, 50)]
    (by norm_num [person_bid, person_bid_go, get_max_bid, borrowing_rate,
      individual_wealth_adjustment, get_max_mortgage_share, get_max_mortgage,
      bid_price, demoListing])

end HousingApp

